import Mathlib

/-!
Verification of the fhir-populator upload engine (`src/fhir_populator/populator.py`).

The Python source is shallowly embedded: pure computations become Lean
functions, the stateful loops (package download, per-package upload) become
explicit recursions over their work queues, and the external collaborators
(HTTP transport, filesystem walk, JSON/XML parsing, the registry) are modelled
as explicit inputs, following the contracts the program relies on.  Machine
integers do not overflow in any of the embedded code paths (all quantities are
small priorities, lengths and HTTP status codes), so `Nat`/`Int` are used
directly; Python's negative slice indexing is modelled explicitly where it can
occur (`py_slice_to`).
-/

namespace FhirPopulator

/-! ## Resource priority table (`FhirResource.resource_order_dict`, populator.py lines 34-55) -/

/-- Embedding of the class attribute `FhirResource.resource_order_dict`: the
fixed `resourceType -> priority` association, in source order.  Note the source
maps `"Patient"` to `110`, not `120`. -/
def resource_order_dict : List (String × Nat) :=
  [("CodeSystem", 1),
   ("ValueSet", 2),
   ("ConceptMap", 3),
   ("StructureDefinition", 4),
   ("Bundle", 100),
   ("Patient", 110),
   ("Condition", 120),
   ("Consent", 120),
   ("DiagnosticReport", 120),
   ("Immunization", 120),
   ("MedicationStatement", 120),
   ("Observation", 120),
   ("Procedure", 120),
   ("ImplementationGuide", 999)]

/-- Default priority for resource types absent from the table: the Python
default parameter `default_resource_priority: int = 50` of
`FhirResource.get_resource_order`, which every call site leaves at its
default. -/
def default_resource_priority : Nat := 50

/-- Embedding of `FhirResource.get_resource_order`: look the resource type up
in `resource_order_dict`, falling back to `default_resource_priority`. -/
def get_resource_order (resource_type : String) : Nat :=
  match resource_order_dict.find? (fun p => p.1 == resource_type) with
  | some p => p.2
  | none => default_resource_priority

/-! ## Upload request selection (`Populator.upload_resources`, lines 495-504) -/

/-- An HTTP request line as the upload loop computes it: method plus URL. -/
structure UploadRequest where
  method : String
  url : String
deriving DecidableEq, Repr

/-- Embedding of the method/url computation of the upload loop (lines
495-504): start from `POST {endpoint}/{resourceType}`, switch to
`PUT {endpoint}/{resourceType}/{id}` when the record carries a resolved id,
then override to `POST {endpoint}` for a Bundle whose declared `type` document
field (read by `get_argument("type")`, absent allowed) is `"transaction"`.
`bundle_type` is the document's top-level `type` field. -/
def upload_request_for (endpoint resource_type : String)
    (resolved_id bundle_type : Option String) : UploadRequest :=
  let upload_url := endpoint ++ "/" ++ resource_type
  let pair : String × String :=
    match resolved_id with
    | some i => ("PUT", upload_url ++ "/" ++ i)
    | none => ("POST", upload_url)
  if resource_type = "Bundle" then
    if bundle_type = some "transaction" then
      UploadRequest.mk "POST" endpoint
    else
      UploadRequest.mk pair.1 pair.2
  else
    UploadRequest.mk pair.1 pair.2

/-! ## Claim C2: the priority table -/

/-- C2 (counterexample): the claim maps `Patient` to 120, but the source table
(line 40 of populator.py) maps `Patient` to 110. -/
theorem c2_patient_counterexample :
    get_resource_order "Patient" = 110 ∧ get_resource_order "Patient" ≠ 120 := by
  decide

/-- C2 (amended): the computed priority follows the source table with
`Patient = 110` (not 120): CodeSystem=1, ValueSet=2, ConceptMap=3,
StructureDefinition=4, Bundle=100, Patient=110, and each of Condition,
Consent, DiagnosticReport, Immunization, MedicationStatement, Observation,
Procedure maps to 120, ImplementationGuide=999, and every resource type not
listed maps to 50. -/
theorem c2_priority_table :
    (get_resource_order "CodeSystem" = 1 ∧
     get_resource_order "ValueSet" = 2 ∧
     get_resource_order "ConceptMap" = 3 ∧
     get_resource_order "StructureDefinition" = 4 ∧
     get_resource_order "Bundle" = 100 ∧
     get_resource_order "Patient" = 110 ∧
     get_resource_order "Condition" = 120 ∧
     get_resource_order "Consent" = 120 ∧
     get_resource_order "DiagnosticReport" = 120 ∧
     get_resource_order "Immunization" = 120 ∧
     get_resource_order "MedicationStatement" = 120 ∧
     get_resource_order "Observation" = 120 ∧
     get_resource_order "Procedure" = 120 ∧
     get_resource_order "ImplementationGuide" = 999) ∧
    (∀ rt : String, rt ∉ resource_order_dict.map Prod.fst →
      get_resource_order rt = 50) := by
  constructor
  · decide
  · intro rt hrt
    have hfind : resource_order_dict.find? (fun p => p.1 == rt) = none := by
      apply List.find?_eq_none.mpr
      intro p hp hbeq
      exact hrt (List.mem_map.mpr ⟨p, hp, eq_of_beq hbeq⟩)
    simp [get_resource_order, hfind, default_resource_priority]

/-- C2 witness: the default clause of `c2_priority_table` evaluated at the
concrete unlisted type `"Medication"`. -/
theorem c2_priority_table_witness :
    ("Medication" ∉ resource_order_dict.map Prod.fst) ∧
      get_resource_order "Medication" = 50 := by
  refine ⟨by decide, c2_priority_table.2 "Medication" (by decide)⟩

/-! ## Claim C3: HTTP method and URL selection -/

/-- C3 (confirmed): the upload loop issues `PUT {endpoint}/{rt}/{id}` when an
id is resolved and `POST {endpoint}/{rt}` when none is, except that a record
with resource type `"Bundle"` whose declared document `type` field is
`"transaction"` is sent as `POST` to the bare endpoint regardless of any
resolved id. -/
theorem c3_request_selection (endpoint rt i : String) (bt : Option String) :
    (¬(rt = "Bundle" ∧ bt = some "transaction") →
      upload_request_for endpoint rt (some i) bt =
        UploadRequest.mk "PUT" (endpoint ++ "/" ++ rt ++ "/" ++ i) ∧
      upload_request_for endpoint rt none bt =
        UploadRequest.mk "POST" (endpoint ++ "/" ++ rt)) ∧
    (rt = "Bundle" → bt = some "transaction" →
      ∀ resolved_id : Option String,
        upload_request_for endpoint rt resolved_id bt =
          UploadRequest.mk "POST" endpoint) := by
  constructor
  · intro hne
    unfold upload_request_for
    by_cases hb : rt = "Bundle"
    · have hbt : ¬ bt = some "transaction" := fun h => hne ⟨hb, h⟩
      simp [hb, hbt]
    · simp [hb]
  · intro hb ht resolved_id
    unfold upload_request_for
    cases resolved_id <;> simp [hb, ht]

/-- C3 witness: `c3_request_selection` at concrete inputs: a `Patient` with a
resolved id, and a transaction `Bundle`. -/
theorem c3_request_selection_witness :
    upload_request_for "http://fhir.example/fhir" "Patient" (some "p1") none =
      UploadRequest.mk "PUT" "http://fhir.example/fhir/Patient/p1" ∧
    upload_request_for "http://fhir.example/fhir" "Bundle" (some "b1")
        (some "transaction") =
      UploadRequest.mk "POST" "http://fhir.example/fhir" := by
  refine ⟨((c3_request_selection "http://fhir.example/fhir" "Patient" "p1"
      none).1 (by simp)).1, ?_⟩
  exact (c3_request_selection "http://fhir.example/fhir" "Bundle" "b1"
      (some "transaction")).2 rfl rfl (some "b1")

/-! ## Resource records and the per-package sort (`Populator.sort_fhir_files`, lines 545-559) -/

/-- Embedding of a constructed `FhirResource`: the fields the upload engine
reads.  `resource_order` is the priority stored by `__init__` via
`get_resource_order`. -/
structure FhirResource where
  file_path : String
  resource_type : String
  id : Option String
  resource_order : Nat
deriving DecidableEq, Repr

/-- The Python sort key `sort_key(x) = (x.resource_order, x.resource_type)`
compared as Python compares tuples: lexicographically, with string comparison
by code point (Lean's `String` linear order is exactly code-point
lexicographic).  `sort_key_le x y` states `key x <= key y`. -/
def sort_key_le (x y : FhirResource) : Prop :=
  x.resource_order < y.resource_order ∨
    (x.resource_order = y.resource_order ∧ x.resource_type ≤ y.resource_type)

instance : DecidableRel sort_key_le := fun x y => by
  unfold sort_key_le
  infer_instance

/-- Embedding of `Populator.sort_fhir_files`: Python's `list.sort` is a stable
sort by the key above; it is embedded as a stable insertion sort under
`sort_key_le`. -/
def sort_fhir_files (fhir_files : List FhirResource) : List FhirResource :=
  List.insertionSort sort_key_le fhir_files

instance : IsTrans FhirResource sort_key_le := by
  constructor
  intro a b c hab hbc
  rcases hab with h1 | ⟨h1, h1s⟩ <;> rcases hbc with h2 | ⟨h2, h2s⟩
  · exact Or.inl (h1.trans h2)
  · exact Or.inl (h2 ▸ h1)
  · exact Or.inl (h1 ▸ h2)
  · exact Or.inr ⟨h1.trans h2, le_trans h1s h2s⟩

instance : IsTotal FhirResource sort_key_le := by
  constructor
  intro a b
  rcases Nat.lt_trichotomy a.resource_order b.resource_order with h | h | h
  · exact Or.inl (Or.inl h)
  · rcases le_total a.resource_type b.resource_type with hs | hs
    · exact Or.inl (Or.inr ⟨h, hs⟩)
    · exact Or.inr (Or.inr ⟨h.symm, hs⟩)
  · exact Or.inr (Or.inl h)

/-- In a list sorted under `sort_key_le`, every record of a strictly
lower-priority type sits strictly before every record of a higher-priority
type.  Stated for any two types whose table priorities are strictly
ordered. -/
theorem sorted_type_precedes (out : List FhirResource) (t1 t2 : String)
    (hsorted : out.Pairwise sort_key_le)
    (horder : ∀ r ∈ out, r.resource_order = get_resource_order r.resource_type)
    (hlt : get_resource_order t1 < get_resource_order t2) :
    ∀ i j (hi : i < out.length) (hj : j < out.length),
      (out.get ⟨i, hi⟩).resource_type = t1 →
      (out.get ⟨j, hj⟩).resource_type = t2 → i < j := by
  intro i j hi hj ht1 ht2
  by_contra hnot
  have hji : j ≤ i := Nat.le_of_not_lt hnot
  rcases Nat.eq_or_lt_of_le hji with heq | hjlt
  · have hgg : out.get ⟨i, hi⟩ = out.get ⟨j, hj⟩ :=
      congrArg out.get (Fin.ext heq.symm)
    have h12 : t1 = t2 := ht1.symm.trans (hgg ▸ ht2)
    rw [h12] at hlt
    exact lt_irrefl _ hlt
  · have hpair := List.pairwise_iff_getElem.mp hsorted j i hj hi hjlt
    have ho1 : (out.get ⟨i, hi⟩).resource_order = get_resource_order t1 := by
      rw [horder _ (List.get_mem out _ _), ht1]
    have ho2 : (out.get ⟨j, hj⟩).resource_order = get_resource_order t2 := by
      rw [horder _ (List.get_mem out _ _), ht2]
    simp only [sort_key_le, List.get_eq_getElem] at hpair
    simp only [List.get_eq_getElem] at ho1 ho2
    rcases hpair with hcase | ⟨hcase, _⟩
    · rw [ho1, ho2] at hcase
      omega
    · rw [ho1, ho2] at hcase
      omega

/-! ## Claim C4: the per-package sort -/

/-- C4 (confirmed): `sort_fhir_files` sorts by the composite key (priority
ascending, resource type lexicographic) while permuting the input; it is
stable (any key-sorted sublist of the input survives as a sublist of the
output, so equal-key records keep their relative order); and on any input
containing CodeSystem, ValueSet, ConceptMap and StructureDefinition records
(with priorities as stored by construction), every CodeSystem record precedes
every ValueSet record, which precedes every ConceptMap record, which precedes
every StructureDefinition record. -/
theorem c4_sort_fhir_files (l : List FhirResource) :
    List.Sorted sort_key_le (sort_fhir_files l) ∧
    (sort_fhir_files l).Perm l ∧
    (∀ c : List FhirResource, c.Pairwise sort_key_le → c.Sublist l →
      c.Sublist (sort_fhir_files l)) ∧
    ((∀ r ∈ l, r.resource_order = get_resource_order r.resource_type) →
     (∃ r ∈ l, r.resource_type = "CodeSystem") →
     (∃ r ∈ l, r.resource_type = "ValueSet") →
     (∃ r ∈ l, r.resource_type = "ConceptMap") →
     (∃ r ∈ l, r.resource_type = "StructureDefinition") →
     ∀ i j (hi : i < (sort_fhir_files l).length)
         (hj : j < (sort_fhir_files l).length),
       ((((sort_fhir_files l).get ⟨i, hi⟩).resource_type = "CodeSystem" →
         ((sort_fhir_files l).get ⟨j, hj⟩).resource_type = "ValueSet" → i < j) ∧
        (((sort_fhir_files l).get ⟨i, hi⟩).resource_type = "ValueSet" →
         ((sort_fhir_files l).get ⟨j, hj⟩).resource_type = "ConceptMap" → i < j) ∧
        (((sort_fhir_files l).get ⟨i, hi⟩).resource_type = "ConceptMap" →
         ((sort_fhir_files l).get ⟨j, hj⟩).resource_type = "StructureDefinition" →
           i < j))) := by
  have hsorted : List.Sorted sort_key_le (sort_fhir_files l) :=
    List.sorted_insertionSort sort_key_le l
  have hperm : (sort_fhir_files l).Perm l := List.perm_insertionSort sort_key_le l
  refine ⟨hsorted, hperm, ?_, ?_⟩
  · intro c hc hcl
    exact List.sublist_insertionSort hc hcl
  · intro horder _ _ _ _ i j hi hj
    have horder' : ∀ r ∈ sort_fhir_files l,
        r.resource_order = get_resource_order r.resource_type := by
      intro r hr
      exact horder r (hperm.mem_iff.mp hr)
    refine ⟨?_, ?_, ?_⟩
    · exact fun h1 h2 => sorted_type_precedes _ "CodeSystem" "ValueSet" hsorted
        horder' (by decide) i j hi hj h1 h2
    · exact fun h1 h2 => sorted_type_precedes _ "ValueSet" "ConceptMap" hsorted
        horder' (by decide) i j hi hj h1 h2
    · exact fun h1 h2 => sorted_type_precedes _ "ConceptMap" "StructureDefinition"
        hsorted horder' (by decide) i j hi hj h1 h2

/-- Concrete record list for the C4 witness: the four terminology/structure
types in reverse upload order. -/
def c4_example_files : List FhirResource :=
  [FhirResource.mk "package/sd.json" "StructureDefinition" none
      (get_resource_order "StructureDefinition"),
   FhirResource.mk "package/cm.json" "ConceptMap" none
      (get_resource_order "ConceptMap"),
   FhirResource.mk "package/vs.json" "ValueSet" none
      (get_resource_order "ValueSet"),
   FhirResource.mk "package/cs.json" "CodeSystem" none
      (get_resource_order "CodeSystem")]

/-- C4 witness: `c4_sort_fhir_files` applied to `c4_example_files`; the sorted
output has the CodeSystem record at index 0 and the ValueSet record at index
1, so the precedence clause yields `0 < 1`. -/
theorem c4_sort_fhir_files_witness : (0 : Nat) < 1 :=
  ((c4_sort_fhir_files c4_example_files).2.2.2 (by decide) (by decide)
    (by decide) (by decide) (by decide) 0 1 (by decide) (by decide)).1
    (by decide) (by decide)

/-! ## Resource id policy (`FhirResource.get_id`, lines 141-154)

The id policy uses `python-slugify`'s `slugify` and Python string slicing.
`slugify` is an external collaborator; it is embedded for ASCII input without
quote characters, which covers every input exercised here: lowercase the text,
replace each run of characters outside `a-z0-9` by a single `-`, strip leading
and trailing `-`, and, when a positive `max_length` is given, truncate with
`smart_truncate` (no word boundary): cut to `max_length` characters and strip
`-` again.  A non-positive `max_length` performs no truncation, exactly as in
the library (`if max_length > 0`).
-/

/-- Characters the slug keeps: lowercase ASCII letters and digits. -/
def slug_allowed (c : Char) : Bool :=
  ('a' ≤ c && c ≤ 'z') || ('0' ≤ c && c ≤ '9')

/-- Collapse every run of consecutive dashes to a single dash. -/
def collapse_dashes : List Char → List Char
  | [] => []
  | [c] => [c]
  | c1 :: c2 :: rest =>
    if c1 = '-' ∧ c2 = '-' then collapse_dashes (c2 :: rest)
    else c1 :: collapse_dashes (c2 :: rest)

/-- Strip leading and trailing dashes (Python `str.strip('-')`). -/
def strip_dashes (l : List Char) : List Char :=
  ((l.dropWhile (fun c => c = '-')).reverse.dropWhile (fun c => c = '-')).reverse

/-- Embedding of `slugify.slugify`'s `smart_truncate(text, max_length,
word_boundary=False, separator='-')`. -/
def smart_truncate (l : List Char) (max_length : Nat) : List Char :=
  let s := strip_dashes l
  if max_length = 0 then s
  else if s.length < max_length then s
  else strip_dashes (s.take max_length)

/-- Embedding of `slugify.slugify(text, max_length=...)` for ASCII text
without quote characters.  `max_length` is an `Int` because the source passes
`64 - len(slug_version) - 2`, which can be negative; the library only
truncates when `max_length > 0`. -/
def ascii_slugify (s : String) (max_length : Int) : String :=
  let core := strip_dashes (collapse_dashes
    (s.data.map (fun c => if slug_allowed c.toLower then c.toLower else '-')))
  if 0 < max_length then String.mk (smart_truncate core max_length.toNat)
  else String.mk core

/-- Python's slice `s[:n]` for an `int` bound `n`: for `0 <= n` the first `n`
characters; for `n < 0` everything but the last `-n` characters. -/
def py_slice_to (s : String) (n : Int) : String :=
  if 0 ≤ n then String.mk (s.data.take n.toNat)
  else String.mk (s.data.take (s.data.length - (-n).toNat))

/-- Embedding of `FhirResource.get_id` (lines 141-154).  `existing_id` is the
document's own `id` field (`get_argument("id")`), `filename_no_ext` is
`os.path.splitext(os.path.basename(file_path))[0]`. -/
def get_id (existing_id : Option String) (package_version : String)
    (generate_missing_ids versioned_ids : Bool)
    (filename_no_ext : String) : Option String :=
  if existing_id = none ∧ generate_missing_ids = false then none
  else
    let slug_version := ascii_slugify package_version 0
    let max_length_versioned : Int := 64 - (slug_version.length : Int) - 2
    let generated_id := ascii_slugify filename_no_ext max_length_versioned
    let resource_id :=
      match existing_id with
      | some i => i
      | none => generated_id
    if versioned_ids then
      some (py_slice_to resource_id max_length_versioned ++ "--" ++ slug_version)
    else
      some (py_slice_to resource_id 64)

/-! ## Claim C5: the versioned-id form -/

/-- C5 (counterexample): the claim asserts a length bound of 64 for every
filename/version/existing-id combination.  For a package version whose slug is
63 characters long, `max_length_versioned = 64 - 63 - 2 = -1` is negative, so
Python's `resource_id[:max_length_versioned]` drops one trailing character
instead of truncating, and the resolved id has length 9 + 2 + 63 = 74 > 64. -/
theorem c5_counterexample :
    get_id (some "abcdefghij") (String.mk (List.replicate 63 'a')) false true
        "file"
      = some ("abcdefghi--" ++ String.mk (List.replicate 63 'a')) ∧
    64 < (("abcdefghi--" ++ String.mk (List.replicate 63 'a')) : String).length := by
  constructor
  · decide
  · decide

/-- The base id of the id policy (lines 145-150): the document's existing id
when present, else the generated filename slug (already truncated by the
`max_length` argument that `get_id` passes to `slugify`). -/
def base_id (existing_id : Option String)
    (package_version filename_no_ext : String) : String :=
  match existing_id with
  | some i => i
  | none => ascii_slugify filename_no_ext
      (64 - ((ascii_slugify package_version 0).length : Int) - 2)

/-- C5 (amended): whenever the slugified package version is at most 62
characters long (so that `64 - len(versionSlug) - 2` is non-negative), and an
id is resolved at all, the `versionedIds=true` id equals the base id (the
existing id, else the generated filename slug) truncated to
`64 - len(versionSlug) - 2` characters, followed by `"--"`, followed by the
slugified version, and its length is at most 64.  For longer version slugs the
bound fails (see the counterexample). -/
theorem c5_versioned_id (existing_id : Option String)
    (package_version filename_no_ext : String) (generate_missing_ids : Bool)
    (hv : (ascii_slugify package_version 0).length ≤ 62)
    (hsome : existing_id ≠ none ∨ generate_missing_ids = true) :
    ∃ r : String,
      get_id existing_id package_version generate_missing_ids true
          filename_no_ext = some r ∧
      r = String.mk ((base_id existing_id package_version filename_no_ext).data.take
          (64 - (ascii_slugify package_version 0).length - 2))
        ++ "--" ++ ascii_slugify package_version 0 ∧
      r.length ≤ 64 := by
  have hcond : ¬(existing_id = none ∧ generate_missing_ids = false) := by
    rintro ⟨h1, h2⟩
    rcases hsome with h | h
    · exact h h1
    · rw [h] at h2
      exact absurd h2 (by decide)
  have hnneg : (0 : Int) ≤ 64 - ((ascii_slugify package_version 0).length : Int) - 2 := by
    omega
  have hslice : ∀ s : String,
      py_slice_to s (64 - ((ascii_slugify package_version 0).length : Int) - 2)
        = String.mk (s.data.take (64 - (ascii_slugify package_version 0).length - 2)) := by
    intro s
    unfold py_slice_to
    rw [if_pos hnneg]
    congr 2
    omega
  have hmain : get_id existing_id package_version generate_missing_ids true
      filename_no_ext
      = some (py_slice_to (base_id existing_id package_version filename_no_ext)
          (64 - ((ascii_slugify package_version 0).length : Int) - 2)
        ++ "--" ++ ascii_slugify package_version 0) := by
    unfold get_id base_id
    rw [if_neg hcond]
    rfl
  rw [hslice] at hmain
  refine ⟨_, hmain, rfl, ?_⟩
  rw [String.length_append, String.length_append]
  have htake : (String.mk ((base_id existing_id package_version
      filename_no_ext).data.take
      (64 - (ascii_slugify package_version 0).length - 2))).length
      ≤ 64 - (ascii_slugify package_version 0).length - 2 := by
    show (List.take _ _).length ≤ _
    rw [List.length_take]
    omega
  have h2 : ("--" : String).length = 2 := by decide
  omega

/-- C5 witness: `c5_versioned_id` at the concrete inputs of a short version
(`"1.0.0"`, slug `"1-0-0"` of length 5) and an existing id. -/
theorem c5_versioned_id_witness :
    (ascii_slugify "1.0.0" 0).length ≤ 62 ∧
    get_id (some "patient-example") "1.0.0" false true "pt"
      = some "patient-example--1-0-0" := by
  constructor
  · decide
  · obtain ⟨r, h1, h2, _⟩ := c5_versioned_id (some "patient-example") "1.0.0"
      "pt" false (by decide) (Or.inl (by decide))
    rw [h2] at h1
    rw [h1]
    decide

/-! ## The per-package upload loop (`Populator.upload_resources`, lines 490-543)

The sorted record list is consumed as a mutable queue: pop the front record,
send one HTTP request, and on a non-2xx status either Ignore (drop the record)
or, after an interactive prompt, Retry (re-insert the record at the front).
The server is modelled as a status oracle `status : FhirResource -> Nat` and
the interactive operator as `choose_action : Nat -> UploadAction` (indexed by
how many prompts were shown so far); in non-interactive mode the operator is
never consulted.  Because the interactive Retry path can loop forever by
design ("an operator can retry indefinitely"), the recursion carries explicit
fuel; the Boolean result is `true` when the queue was emptied within the given
fuel.  The event trace records requests, successes, ignore-warnings and
prompts in order.
-/

/-- The two choices offered by the failure prompt (lines 528-536). -/
inductive UploadAction
  | Ignore
  | Retry
deriving DecidableEq, Repr

/-- Observable events of one run of the upload loop. -/
inductive UploadEvent
  | request (r : FhirResource)
  | uploaded (r : FhirResource)
  | warn_ignored (r : FhirResource)
  | prompted (r : FhirResource)
deriving DecidableEq, Repr

/-- Embedding of the `while len(fhir_files) > 0` loop (lines 490-543), with
the request sending, response parsing and logging abstracted into the event
trace.  One iteration: pop the front record, send the request; on 2xx
continue; otherwise Ignore (immediately when `non_interactive`, or by operator
choice after a prompt) or Retry by re-inserting the record at the front. -/
def upload_loop (non_interactive : Bool) (status : FhirResource → Nat)
    (choose_action : Nat → UploadAction) (fuel prompt_count : Nat)
    (queue : List FhirResource) : List UploadEvent × Bool :=
  match fuel, queue with
  | _, [] => ([], true)
  | 0, _ :: _ => ([], false)
  | fuel + 1, r :: rest =>
    let s := status r
    if 200 ≤ s ∧ s < 300 then
      let next := upload_loop non_interactive status choose_action fuel
        prompt_count rest
      (UploadEvent.request r :: UploadEvent.uploaded r :: next.1, next.2)
    else if non_interactive then
      let next := upload_loop non_interactive status choose_action fuel
        prompt_count rest
      (UploadEvent.request r :: UploadEvent.warn_ignored r :: next.1, next.2)
    else
      match choose_action prompt_count with
      | UploadAction.Ignore =>
        let next := upload_loop non_interactive status choose_action fuel
          (prompt_count + 1) rest
        (UploadEvent.request r :: UploadEvent.prompted r ::
          UploadEvent.warn_ignored r :: next.1, next.2)
      | UploadAction.Retry =>
        let next := upload_loop non_interactive status choose_action fuel
          (prompt_count + 1) (r :: rest)
        (UploadEvent.request r :: UploadEvent.prompted r :: next.1, next.2)

/-- The records for which a request was sent, in order. -/
def requested (evs : List UploadEvent) : List FhirResource :=
  evs.filterMap (fun e =>
    match e with
    | UploadEvent.request r => some r
    | _ => none)

/-- Joint behaviour of the non-interactive upload loop with fuel equal to the
queue length: it finishes, requests each record exactly once in queue order,
never prompts, and logs an ignore-warning exactly for the non-2xx records. -/
theorem upload_loop_non_interactive_spec (status : FhirResource → Nat)
    (choose_action : Nat → UploadAction) (prompt_count : Nat)
    (queue : List FhirResource) :
    (upload_loop true status choose_action queue.length prompt_count queue).2
        = true ∧
    requested (upload_loop true status choose_action queue.length prompt_count
        queue).1 = queue ∧
    (∀ r, UploadEvent.prompted r ∉
      (upload_loop true status choose_action queue.length prompt_count
        queue).1) ∧
    (∀ r, UploadEvent.warn_ignored r ∈
        (upload_loop true status choose_action queue.length prompt_count
          queue).1
      ↔ r ∈ queue ∧ ¬(200 ≤ status r ∧ status r < 300)) := by
  induction queue with
  | nil => simp [upload_loop, requested]
  | cons r rest ih =>
    obtain ⟨ih1, ih2, ih3, ih4⟩ := ih
    by_cases hs : 200 ≤ status r ∧ status r < 300
    · refine ⟨?_, ?_, ?_, ?_⟩
      · simpa [upload_loop, hs] using ih1
      · simpa [upload_loop, hs, requested] using ih2
      · intro x
        have := ih3 x
        simp [upload_loop, hs]
        tauto
      · intro x
        have := ih4 x
        simp [upload_loop, hs] at this ⊢
        constructor
        · intro hx
          rcases this.mp hx with ⟨hmem, hns⟩
          exact ⟨Or.inr hmem, hns⟩
        · rintro ⟨hor, hns⟩
          rcases hor with rfl | hmem
          · exact absurd (hns hs.1) (Nat.not_le.mpr hs.2)
          · exact this.mpr ⟨hmem, hns⟩
    · refine ⟨?_, ?_, ?_, ?_⟩
      · simpa [upload_loop, hs] using ih1
      · simpa [upload_loop, hs, requested] using ih2
      · intro x
        have := ih3 x
        simp [upload_loop, hs]
        tauto
      · intro x
        have := ih4 x
        simp [upload_loop, hs] at this ⊢
        constructor
        · rintro (rfl | hx)
          · exact ⟨Or.inl rfl, by omega⟩
          · rcases this.mp hx with ⟨hmem, hns⟩
            exact ⟨Or.inr hmem, hns⟩
        · rintro ⟨hor, hns⟩
          rcases hor with rfl | hmem
          · exact Or.inl rfl
          · exact Or.inr (this.mpr ⟨hmem, hns⟩)

/-! ## Claim C6: non-interactive failure handling -/

/-- C6 (confirmed): in non-interactive mode, every record whose upload status
falls outside [200,300) is dropped with a logged ignore-warning, no prompt is
ever shown, the loop still requests every record exactly once in order
(so it proceeds to the next record after a failure), and the loop completes —
an upload failure never aborts the run. -/
theorem c6_non_interactive_ignore (status : FhirResource → Nat)
    (choose_action : Nat → UploadAction) (queue : List FhirResource) :
    (upload_loop true status choose_action queue.length 0 queue).2 = true ∧
    (∀ r, UploadEvent.prompted r ∉
      (upload_loop true status choose_action queue.length 0 queue).1) ∧
    requested (upload_loop true status choose_action queue.length 0 queue).1
      = queue ∧
    (∀ r ∈ queue, ¬(200 ≤ status r ∧ status r < 300) →
      UploadEvent.warn_ignored r ∈
        (upload_loop true status choose_action queue.length 0 queue).1) := by
  obtain ⟨h1, h2, h3, h4⟩ :=
    upload_loop_non_interactive_spec status choose_action 0 queue
  exact ⟨h1, h3, h2, fun r hr hs => (h4 r).mpr ⟨hr, hs⟩⟩

/-- Concrete failing record for the C6 witness. -/
def c6_failing : FhirResource :=
  FhirResource.mk "obs.json" "Observation" none (get_resource_order "Observation")

/-- Concrete succeeding record for the C6 witness. -/
def c6_succeeding : FhirResource :=
  FhirResource.mk "pat.json" "Patient" (some "p1") (get_resource_order "Patient")

/-- Server oracle for the C6 witness: 422 for the failing record, 201
otherwise. -/
def c6_status (r : FhirResource) : Nat :=
  if r = c6_failing then 422 else 201

/-- C6 witness: `c6_non_interactive_ignore` on the queue `[c6_failing,
c6_succeeding]` whose first record receives status 422: the warning event for
it is in the trace. -/
theorem c6_non_interactive_ignore_witness :
    UploadEvent.warn_ignored c6_failing ∈
      (upload_loop true c6_status (fun _ => UploadAction.Ignore) 2 0
        [c6_failing, c6_succeeding]).1 :=
  (c6_non_interactive_ignore c6_status (fun _ => UploadAction.Ignore)
    [c6_failing, c6_succeeding]).2.2.2 c6_failing (by decide) (by decide)

/-! ## Claim C10: termination and request count of the non-interactive loop -/

/-- C10 (confirmed): with fuel equal to the queue length, the non-interactive
loop completes (each iteration pops the front record and nothing is ever
re-inserted, since Retry requires an interactive prompt), and the requests
sent are exactly the queue records in order — in particular exactly `N`
requests for a queue of length `N`. -/
theorem c10_non_interactive_termination (status : FhirResource → Nat)
    (choose_action : Nat → UploadAction) (queue : List FhirResource) :
    (upload_loop true status choose_action queue.length 0 queue).2 = true ∧
    requested (upload_loop true status choose_action queue.length 0 queue).1
      = queue ∧
    (requested (upload_loop true status choose_action queue.length 0
      queue).1).length = queue.length := by
  obtain ⟨h1, h2, _, _⟩ :=
    upload_loop_non_interactive_spec status choose_action 0 queue
  exact ⟨h1, h2, by rw [h2]⟩

/-! ## The package file walk (`Populator.upload_resources`, lines 443-474, and `FhirResource.__init__`, lines 22-32)

Each file that survives the filename filters (`other/` directories,
`package.json`/`index.json`, `.sch` files, unincluded `examples/`) is parsed
into a `FhirResource` inside a `try`: a `JSONDecodeError` (unparseable
document) or `LookupError` (document without a `resourceType`, raised by
`get_argument(..., raise_on_missing=True)`) is logged and the file is skipped;
a successfully built record is dropped again if its lower-cased resource type
is excluded (or absent from a non-empty allow-list), else appended to the
upload set.  The parsed document is modelled as `FileContent`, the walk entry
as `WalkFile`.
-/

/-- A parsed (or unparseable) resource document: `malformed` stands for a
document that raises on parse; `doc` carries the top-level `resourceType` and
`id` fields. -/
inductive FileContent
  | malformed
  | doc (resource_type : Option String) (doc_id : Option String)
deriving DecidableEq, Repr

/-- One file reaching the `FhirResource(...)` constructor call: its path, its
basename without extension (`os.path.splitext(os.path.basename(...))[0]`) and
its parsed content. -/
structure WalkFile where
  file_path : String
  filename_no_ext : String
  content : FileContent
deriving DecidableEq, Repr

/-- The two per-file failures the walk catches (line 471):
`json.decoder.JSONDecodeError` and `LookupError`. -/
inductive BuildError
  | parse_error
  | missing_resource_type
deriving DecidableEq, Repr

/-- Embedding of `FhirResource.__init__` (lines 22-32): fails on an
unparseable document or a missing `resourceType`; otherwise resolves the id
via `get_id` and the priority via `get_resource_order`. -/
def build_fhir_resource (package_version : String)
    (generate_missing_ids versioned_ids : Bool) (wf : WalkFile) :
    Except BuildError FhirResource :=
  match wf.content with
  | FileContent.malformed => Except.error BuildError.parse_error
  | FileContent.doc none _ => Except.error BuildError.missing_resource_type
  | FileContent.doc (some rt) did =>
    Except.ok (FhirResource.mk wf.file_path rt
      (get_id did package_version generate_missing_ids versioned_ids
        wf.filename_no_ext)
      (get_resource_order rt))

/-- Embedding of the collection loop (lines 443-474) over the files reaching
the constructor: returns the upload set and the paths of the files whose
construction failed (each of which the source logs as an error before
continuing with the next file). -/
def collect_fhir_files (package_version : String)
    (generate_missing_ids versioned_ids : Bool)
    (exclude_resource_type allow_list : List String) :
    List WalkFile → List FhirResource × List String
  | [] => ([], [])
  | wf :: rest =>
    let next := collect_fhir_files package_version generate_missing_ids
      versioned_ids exclude_resource_type allow_list rest
    match build_fhir_resource package_version generate_missing_ids
        versioned_ids wf with
    | Except.error _ => (next.1, wf.file_path :: next.2)
    | Except.ok r =>
      if r.resource_type.toLower ∈ exclude_resource_type ∨
          (allow_list ≠ [] ∧ r.resource_type.toLower ∉ allow_list) then next
      else (r :: next.1, next.2)

/-- The collection loop distributes over list append. -/
theorem collect_fhir_files_append (package_version : String)
    (generate_missing_ids versioned_ids : Bool)
    (exclude_resource_type allow_list : List String) (xs ys : List WalkFile) :
    collect_fhir_files package_version generate_missing_ids versioned_ids
        exclude_resource_type allow_list (xs ++ ys)
      = ((collect_fhir_files package_version generate_missing_ids versioned_ids
            exclude_resource_type allow_list xs).1 ++
         (collect_fhir_files package_version generate_missing_ids versioned_ids
            exclude_resource_type allow_list ys).1,
         (collect_fhir_files package_version generate_missing_ids versioned_ids
            exclude_resource_type allow_list xs).2 ++
         (collect_fhir_files package_version generate_missing_ids versioned_ids
            exclude_resource_type allow_list ys).2) := by
  induction xs with
  | nil => simp [collect_fhir_files]
  | cons wf rest ih =>
    simp only [List.cons_append, collect_fhir_files, ih]
    cases build_fhir_resource package_version generate_missing_ids
        versioned_ids wf with
    | error e => simp [ih]
    | ok r =>
      by_cases hf : r.resource_type.toLower ∈ exclude_resource_type ∨
          (allow_list ≠ [] ∧ r.resource_type.toLower ∉ allow_list)
      · simp [hf, ih]
      · simp [hf, ih]

/-! ## Claim C7: failing files are logged, excluded, and do not abort the walk -/

/-- C7 (confirmed): a walk file whose document is unparseable or lacks a
`resourceType` makes the record construction fail; the file's path is logged
into the error list at its position, the file contributes no record (so the
upload count excludes it), and the files before and after it are processed
exactly as they would be on their own — the walk is not aborted. -/
theorem c7_bad_file_skipped (package_version : String)
    (generate_missing_ids versioned_ids : Bool)
    (exclude_resource_type allow_list : List String)
    (pre post : List WalkFile) (bad : WalkFile)
    (hbad : bad.content = FileContent.malformed ∨
      ∃ i, bad.content = FileContent.doc none i) :
    (∃ e, build_fhir_resource package_version generate_missing_ids
        versioned_ids bad = Except.error e) ∧
    (collect_fhir_files package_version generate_missing_ids versioned_ids
        exclude_resource_type allow_list (pre ++ bad :: post)).1
      = (collect_fhir_files package_version generate_missing_ids versioned_ids
          exclude_resource_type allow_list pre).1 ++
        (collect_fhir_files package_version generate_missing_ids versioned_ids
          exclude_resource_type allow_list post).1 ∧
    (collect_fhir_files package_version generate_missing_ids versioned_ids
        exclude_resource_type allow_list (pre ++ bad :: post)).2
      = (collect_fhir_files package_version generate_missing_ids versioned_ids
          exclude_resource_type allow_list pre).2 ++
        bad.file_path ::
        (collect_fhir_files package_version generate_missing_ids versioned_ids
          exclude_resource_type allow_list post).2 ∧
    ((collect_fhir_files package_version generate_missing_ids versioned_ids
        exclude_resource_type allow_list (pre ++ bad :: post)).1).length
      = ((collect_fhir_files package_version generate_missing_ids versioned_ids
          exclude_resource_type allow_list pre).1).length +
        ((collect_fhir_files package_version generate_missing_ids versioned_ids
          exclude_resource_type allow_list post).1).length := by
  have herr : ∃ e, build_fhir_resource package_version generate_missing_ids
      versioned_ids bad = Except.error e := by
    rcases hbad with h | ⟨i, h⟩
    · exact ⟨BuildError.parse_error, by unfold build_fhir_resource; rw [h]⟩
    · exact ⟨BuildError.missing_resource_type, by
        unfold build_fhir_resource; rw [h]⟩
  obtain ⟨e, he⟩ := herr
  have hstep : collect_fhir_files package_version generate_missing_ids
      versioned_ids exclude_resource_type allow_list (bad :: post)
      = ((collect_fhir_files package_version generate_missing_ids versioned_ids
          exclude_resource_type allow_list post).1,
         bad.file_path ::
         (collect_fhir_files package_version generate_missing_ids versioned_ids
          exclude_resource_type allow_list post).2) := by
    simp [collect_fhir_files, he]
  have happ := collect_fhir_files_append package_version generate_missing_ids
    versioned_ids exclude_resource_type allow_list pre (bad :: post)
  rw [hstep] at happ
  refine ⟨⟨e, he⟩, ?_, ?_, ?_⟩
  · rw [happ]
  · rw [happ]
  · rw [happ]
    simp

/-- Concrete good file for the C7 witness. -/
def c7_good1 : WalkFile :=
  WalkFile.mk "package/cs.json" "cs" (FileContent.doc (some "CodeSystem") (some "cs1"))

/-- Concrete file missing its `resourceType` for the C7 witness. -/
def c7_bad : WalkFile :=
  WalkFile.mk "package/broken.json" "broken" (FileContent.doc none none)

/-- Concrete good file for the C7 witness. -/
def c7_good2 : WalkFile :=
  WalkFile.mk "package/vs.json" "vs" (FileContent.doc (some "ValueSet") (some "vs1"))

/-- C7 witness: `c7_bad_file_skipped` on the concrete walk
`[c7_good1, c7_bad, c7_good2]`: only the two well-formed files yield records. -/
theorem c7_bad_file_skipped_witness :
    ((collect_fhir_files "1.0.0" false false [] []
      [c7_good1, c7_bad, c7_good2]).1).length = 2 := by
  have h := c7_bad_file_skipped "1.0.0" false false [] [] [c7_good1] [c7_good2]
    c7_bad (Or.inr ⟨none, rfl⟩)
  have hlen := h.2.2.2
  rw [show ([c7_good1] ++ c7_bad :: [c7_good2]) = [c7_good1, c7_bad, c7_good2]
    from rfl] at hlen
  rw [hlen]
  decide

/-! ## Payload serialization (`FhirResource.get_payload_rewrite_xml` lines 91-101, `get_payload_rewrite_json` lines 103-111)

The XML document is modelled by its root: `ElementTree`'s `root.find(tag)`
returns the first direct child element with that tag (or `None`), and only the
`.text` of the found child is ever assigned.  The JSON document is modelled as
an association list preserving key order; Python's `d[k] = v` updates the
existing entry in place or appends a new one.  `get_payload_rewrite_xml`
returns `none` exactly when the Python code raises: `id_node = root.find("id")`
followed by `id_node.text = self.id` with no `None` check (lines 98-100, in
contrast to the guarded `version_node` on lines 94-97) raises
`AttributeError` when the document has no `id` child element. -/

/-- A direct child element of the XML root: tag and optional text. -/
structure XmlChild where
  tag : String
  text : Option String
deriving DecidableEq, Repr

/-- The root of an XML resource document with its direct children. -/
structure XmlDoc where
  root_tag : String
  children : List XmlChild
deriving DecidableEq, Repr

/-- Set the text of the first child carrying `tag` (what assigning to
`root.find(tag).text` does when the find succeeds). -/
def xml_set_first (cs : List XmlChild) (tag t : String) : List XmlChild :=
  match cs with
  | [] => []
  | c :: rest =>
    if c.tag = tag then XmlChild.mk c.tag (some t) :: rest
    else c :: xml_set_first rest tag t

/-- Embedding of `get_payload_rewrite_xml` (lines 91-101): rewrite the
`version` child's text when `rewrite_version` is given and the child exists;
then, when an id was resolved, assign to the `id` child's text with no
existence check — `none` models the uncaught `AttributeError` (and hence a
crash of the run) when the document has no `id` child. -/
def get_payload_rewrite_xml (rewrite_version resolved_id : Option String)
    (d : XmlDoc) : Option XmlDoc :=
  let d1 :=
    match rewrite_version with
    | none => d
    | some v =>
      match d.children.find? (fun c => c.tag == "version") with
      | none => d
      | some _ => XmlDoc.mk d.root_tag (xml_set_first d.children "version" v)
  match resolved_id with
  | none => some d1
  | some i =>
    match d1.children.find? (fun c => c.tag == "id") with
    | none => none
    | some _ => some (XmlDoc.mk d1.root_tag (xml_set_first d1.children "id" i))

/-- Update key `k` to `v` in an association list as Python `dict` assignment
does: replace in place when present, append otherwise. -/
def json_set (doc : List (String × String)) (k v : String) :
    List (String × String) :=
  match doc with
  | [] => [(k, v)]
  | kv :: rest =>
    if kv.1 = k then (k, v) :: rest else kv :: json_set rest k v

/-- Embedding of `get_payload_rewrite_json` (lines 103-111): overwrite
`version` only when `rewrite_version` is given and the key is present,
then set `id` (updating or adding the key) whenever an id was resolved;
total, unlike the XML path. -/
def get_payload_rewrite_json (rewrite_version resolved_id : Option String)
    (doc : List (String × String)) : List (String × String) :=
  let d1 :=
    match rewrite_version with
    | none => doc
    | some v =>
      if (doc.map Prod.fst).contains "version" then json_set doc "version" v
      else doc
  match resolved_id with
  | none => d1
  | some i => json_set d1 "id" i

/-! ## Claim C8: serialization rewrites — code bug on XML without an `id` element -/

/-- C8 (code bug evidence): for an XML document with no `id` child element
and a resolved id — e.g. any XML resource uploaded with `--only-put`, whose
missing document id is exactly why an id was generated — the serialization
does not rewrite-and-return the document as the claim states: the unguarded
`id_node.text = self.id` (lines 98-100) dereferences `None` and raises
`AttributeError`, which no enclosing handler catches, aborting the run.  The
sibling `version` rewrite three lines earlier checks for `None`, so the claim
describes the evident intent and the code is a slip. -/
theorem c8_xml_missing_id_crash :
    get_payload_rewrite_xml none (some "generated-id")
        (XmlDoc.mk "Patient" [XmlChild.mk "status" (some "active")]) = none ∧
    get_payload_rewrite_xml (some "1.0.0") (some "new-id")
        (XmlDoc.mk "Patient"
          [XmlChild.mk "id" (some "old-id"), XmlChild.mk "version" (some "0.9")])
      = some (XmlDoc.mk "Patient"
          [XmlChild.mk "id" (some "new-id"),
           XmlChild.mk "version" (some "1.0.0")]) := by
  constructor
  · rfl
  · rfl

/-! ## Dependency graph and topological traversal (`Populator.upload_resources`, lines 430-436)

`upload_resources` iterates `nx.topological_sort(dependency_graph)`, which in
networkx is a lazy generator over `topological_generations`: it repeatedly
yields the nodes that currently have indegree zero among the not-yet-yielded
nodes, and raises `NetworkXUnfeasible` ("Graph contains a cycle") as soon as
no such node remains while unsorted nodes do.  Because the `for` loop uploads
each yielded package before asking the generator for the next node, a cyclic
graph aborts the run fatally only after the packages of the acyclic prefix
have already been uploaded.  `kahn_generations` embeds the generator: it
returns the yielded nodes in order, plus `true` when the generator finished
(no cycle) and `false` when it raised.  The fuel is the number of remaining
nodes, which bounds the number of nonempty generations. -/

/-- A directed dependency graph as networkx stores it: node keys (`"id@version"`
strings, distinct) and `dependency -> dependent` edges whose endpoints are
nodes. -/
structure DepGraph where
  nodes : List String
  edges : List (String × String)
deriving DecidableEq, Repr

/-- The nodes of `remaining` with no incoming edge from a node of
`remaining` — the next generation the networkx generator yields. -/
def zero_indegree (edges : List (String × String))
    (remaining : List String) : List String :=
  remaining.filter (fun n =>
    !(edges.any (fun e => e.2 == n && remaining.contains e.1)))

/-- Embedding of the lazy `topological_sort` generator: the yielded node
sequence and whether the generator finished without raising
`NetworkXUnfeasible`. -/
def kahn_generations (edges : List (String × String)) :
    Nat → List String → List String × Bool
  | 0, remaining => ([], remaining.isEmpty)
  | fuel + 1, remaining =>
    if remaining.isEmpty then ([], true)
    else
      let z := zero_indegree edges remaining
      if z.isEmpty then ([], false)
      else
        let next := kahn_generations edges fuel
          (remaining.filter (fun n => !(z.contains n)))
        (z ++ next.1, next.2)

/-- The topological traversal of a dependency graph: yielded nodes plus the
no-cycle flag. -/
def topological_yield (g : DepGraph) : List String × Bool :=
  kahn_generations g.edges g.nodes.length g.nodes

/-- The run of `upload_resources` over a dependency graph, with
`res : package -> its sorted resource files` abstracting the per-package walk:
the `(package, resource)` uploads performed in order, and whether the run
completed rather than aborting with the fatal cycle error. -/
def upload_run (g : DepGraph) (res : String → List String) :
    List (String × String) × Bool :=
  ((topological_yield g).1.flatMap (fun p => (res p).map (fun r => (p, r))),
   (topological_yield g).2)

/-- A node set in which every node has a predecessor inside the set.  A finite
graph contains a directed cycle exactly when such a nonempty set exists:
following predecessors inside the set must eventually repeat a node, and
conversely the node set of any directed cycle is predecessor-closed
(`hasCycle_of_cycle_chain` below proves that direction). -/
def PredClosed (edges : List (String × String)) (c : List String) : Prop :=
  ∀ n ∈ c, ∃ p ∈ c, (p, n) ∈ edges

instance (edges : List (String × String)) (c : List String) :
    Decidable (PredClosed edges c) := by
  unfold PredClosed
  infer_instance

/-- The graph contains a directed cycle. -/
def HasCycle (g : DepGraph) : Prop :=
  ∃ c : List String, c ≠ [] ∧ (∀ n ∈ c, n ∈ g.nodes) ∧ PredClosed g.edges c

/-- Every element of a chain has a predecessor among the chain's start or
elements. -/
theorem chain_pred (edges : List (String × String)) :
    ∀ (v : String) (c : List String),
      List.Chain (fun a b => (a, b) ∈ edges) v c →
      ∀ n ∈ c, ∃ p ∈ v :: c, (p, n) ∈ edges := by
  intro v c
  induction c generalizing v with
  | nil =>
    intro _ n hn
    exact absurd hn (List.not_mem_nil n)
  | cons b rest ih =>
    intro hchain n hn
    rcases List.chain_cons.mp hchain with ⟨hvb, hrest⟩
    rcases List.mem_cons.mp hn with rfl | hn'
    · exact ⟨v, List.mem_cons_self _ _, hvb⟩
    · obtain ⟨p, hp, hpe⟩ := ih b hrest n hn'
      exact ⟨p, List.mem_cons_of_mem v hp, hpe⟩

/-- Sanity connection for `HasCycle`: an explicit directed cycle — a chain
`v -> c₀ -> ... -> cₖ` whose last node has an edge back to `v` — witnesses
`HasCycle` (in a graph whose edges connect nodes). -/
theorem hasCycle_of_cycle_chain (g : DepGraph) (v : String) (c : List String)
    (hwf : ∀ e ∈ g.edges, e.1 ∈ g.nodes ∧ e.2 ∈ g.nodes)
    (hchain : List.Chain (fun a b => (a, b) ∈ g.edges) v c)
    (hclose : ((v :: c).getLast (by simp), v) ∈ g.edges) :
    HasCycle g := by
  refine ⟨v :: c, by simp, ?_, ?_⟩
  · intro n hn
    rcases List.mem_cons.mp hn with rfl | hn'
    · exact (hwf _ hclose).2
    · obtain ⟨p, _, hpe⟩ := chain_pred g.edges v c hchain n hn'
      exact (hwf _ hpe).2
  · intro n hn
    rcases List.mem_cons.mp hn with rfl | hn'
    · exact ⟨(n :: c).getLast (by simp), List.getLast_mem _, hclose⟩
    · obtain ⟨p, hp, hpe⟩ := chain_pred g.edges v c hchain n hn'
      exact ⟨p, hp, hpe⟩

theorem contains_eq_false_of_not_mem {l : List String} {x : String}
    (h : x ∉ l) : l.contains x = false := by
  cases hc : l.contains x with
  | false => rfl
  | true => exact absurd (List.elem_iff.mp hc) h

/-- Membership in the zero-indegree generation, unfolded. -/
theorem mem_zero_indegree (edges : List (String × String))
    (remaining : List String) (n : String) :
    n ∈ zero_indegree edges remaining ↔
      n ∈ remaining ∧
      edges.any (fun e => e.2 == n && remaining.contains e.1) = false := by
  unfold zero_indegree
  rw [List.mem_filter]
  simp

/-- The target of an edge whose source is still remaining is not in the
zero-indegree generation. -/
theorem target_not_zero_indegree (edges : List (String × String))
    (remaining : List String) (u v : String)
    (he : (u, v) ∈ edges) (hu : u ∈ remaining) :
    v ∉ zero_indegree edges remaining := by
  intro hv
  rw [mem_zero_indegree] at hv
  have hany : edges.any (fun e => e.2 == v && remaining.contains e.1) = true :=
    List.any_eq_true.mpr ⟨(u, v), he, by
      simp only [beq_self_eq_true, Bool.true_and]
      exact List.elem_iff.mpr hu⟩
  rw [hv.2] at hany
  exact Bool.false_ne_true hany

/-- One unfolding step of the generator in the productive case. -/
theorem kahn_generations_step (edges : List (String × String)) (fuel : Nat)
    (remaining : List String) (hemp : ¬remaining.isEmpty = true)
    (hz : ¬(zero_indegree edges remaining).isEmpty = true) :
    kahn_generations edges (fuel + 1) remaining
      = (zero_indegree edges remaining ++
          (kahn_generations edges fuel (remaining.filter
            (fun n => !((zero_indegree edges remaining).contains n)))).1,
         (kahn_generations edges fuel (remaining.filter
            (fun n => !((zero_indegree edges remaining).contains n)))).2) := by
  simp [kahn_generations, hemp, hz]

/-- The next remaining list is strictly shorter in the productive case. -/
theorem kahn_filter_lt (edges : List (String × String))
    (remaining : List String)
    (hz : ¬(zero_indegree edges remaining).isEmpty = true) :
    (remaining.filter
      (fun n => !((zero_indegree edges remaining).contains n))).length
      < remaining.length := by
  apply List.length_filter_lt_length_iff_exists.mpr
  obtain ⟨x0, hx0⟩ : ∃ x, x ∈ zero_indegree edges remaining := by
    cases hzl : zero_indegree edges remaining with
    | nil => rw [hzl] at hz; simp at hz
    | cons a t => exact ⟨a, hzl ▸ List.mem_cons_self a t⟩
  exact ⟨x0, (List.mem_filter.mp hx0).1, by
    simp only [Bool.not_eq_eq_eq_not, Bool.not_true, Bool.not_eq_false]
    exact List.elem_iff.mpr hx0⟩

/-- Filtering out the zero-indegree generation agrees with filtering by the
negated generation predicate, on the remaining list itself. -/
theorem kahn_filter_eq (edges : List (String × String))
    (remaining : List String) :
    remaining.filter (fun n => !((zero_indegree edges remaining).contains n))
      = remaining.filter (fun n =>
          !(!(edges.any (fun e => e.2 == n && remaining.contains e.1)))) := by
  apply List.filter_congr
  intro n hn
  congr 1
  cases hp : (!(edges.any (fun e => e.2 == n && remaining.contains e.1))) with
  | true =>
    exact List.elem_iff.mpr (List.mem_filter.mpr ⟨hn, hp⟩)
  | false =>
    apply contains_eq_false_of_not_mem
    intro hmem
    rw [(List.mem_filter.mp hmem).2] at hp
    exact absurd hp (by decide)

/-- When the generator finishes, it yields a permutation of the remaining
nodes. -/
theorem kahn_perm (edges : List (String × String)) :
    ∀ (fuel : Nat) (remaining : List String), remaining.length ≤ fuel →
      (kahn_generations edges fuel remaining).2 = true →
      (kahn_generations edges fuel remaining).1.Perm remaining := by
  intro fuel
  induction fuel with
  | zero =>
    intro remaining hlen _
    have hnil : remaining = [] :=
      List.eq_nil_of_length_eq_zero (Nat.le_zero.mp hlen)
    subst hnil
    simp [kahn_generations]
  | succ fuel ih =>
    intro remaining hlen hok
    by_cases hemp : remaining.isEmpty = true
    · rw [List.isEmpty_iff.mp hemp]
      simp [kahn_generations]
    · have hz : ¬(zero_indegree edges remaining).isEmpty = true := by
        intro hzi
        have hf : (kahn_generations edges (fuel + 1) remaining).2 = false := by
          simp [kahn_generations, hemp, hzi]
        rw [hf] at hok
        exact absurd hok (by decide)
      have hstep := kahn_generations_step edges fuel remaining hemp hz
      have hlt := kahn_filter_lt edges remaining hz
      have hok2 : (kahn_generations edges fuel (remaining.filter
          (fun n => !((zero_indegree edges remaining).contains n)))).2 = true := by
        rw [hstep] at hok
        exact hok
      have hperm1 := ih (remaining.filter
          (fun n => !((zero_indegree edges remaining).contains n)))
        (by omega) hok2
      rw [hstep]
      refine List.Perm.trans (List.Perm.append_left _ hperm1) ?_
      rw [kahn_filter_eq edges remaining]
      exact List.filter_append_perm _ remaining

/-- When the generator finishes over a duplicate-free remaining list, the
source of every edge is yielded strictly before its target: the yield sequence
splits as `l1 ++ u :: l2` with the target in `l2`. -/
theorem kahn_before (edges : List (String × String)) :
    ∀ (fuel : Nat) (remaining : List String), remaining.Nodup →
      remaining.length ≤ fuel →
      (kahn_generations edges fuel remaining).2 = true →
      ∀ u v, (u, v) ∈ edges → u ∈ remaining → v ∈ remaining →
      ∃ l1 l2, (kahn_generations edges fuel remaining).1 = l1 ++ u :: l2 ∧
        v ∈ l2 := by
  intro fuel
  induction fuel with
  | zero =>
    intro remaining _ hlen _ u v _ hu _
    have hnil : remaining = [] :=
      List.eq_nil_of_length_eq_zero (Nat.le_zero.mp hlen)
    rw [hnil] at hu
    exact absurd hu (List.not_mem_nil u)
  | succ fuel ih =>
    intro remaining hnd hlen hok u v he hu hv
    by_cases hemp : remaining.isEmpty = true
    · rw [List.isEmpty_iff.mp hemp] at hu
      exact absurd hu (List.not_mem_nil u)
    · have hz : ¬(zero_indegree edges remaining).isEmpty = true := by
        intro hzi
        have hf : (kahn_generations edges (fuel + 1) remaining).2 = false := by
          simp [kahn_generations, hemp, hzi]
        rw [hf] at hok
        exact absurd hok (by decide)
      have hstep := kahn_generations_step edges fuel remaining hemp hz
      have hlt := kahn_filter_lt edges remaining hz
      have hok2 : (kahn_generations edges fuel (remaining.filter
          (fun n => !((zero_indegree edges remaining).contains n)))).2
          = true := by
        rw [hstep] at hok
        exact hok
      have hvz : v ∉ zero_indegree edges remaining :=
        target_not_zero_indegree edges remaining u v he hu
      have hvfilt : v ∈ remaining.filter
          (fun n => !((zero_indegree edges remaining).contains n)) := by
        refine List.mem_filter.mpr ⟨hv, ?_⟩
        rw [contains_eq_false_of_not_mem hvz]
        rfl
      by_cases huz : u ∈ zero_indegree edges remaining
      · obtain ⟨z1, z2, hzsplit⟩ := List.append_of_mem huz
        have hvnext : v ∈ (kahn_generations edges fuel (remaining.filter
            (fun n => !((zero_indegree edges remaining).contains n)))).1 :=
          (kahn_perm edges fuel _ (by omega) hok2).mem_iff.mpr hvfilt
        refine ⟨z1, z2 ++ (kahn_generations edges fuel (remaining.filter
            (fun n => !((zero_indegree edges remaining).contains n)))).1,
          ?_, List.mem_append.mpr (Or.inr hvnext)⟩
        rw [hstep]
        simp [hzsplit]
      · have hufilt : u ∈ remaining.filter
            (fun n => !((zero_indegree edges remaining).contains n)) := by
          refine List.mem_filter.mpr ⟨hu, ?_⟩
          rw [contains_eq_false_of_not_mem huz]
          rfl
        obtain ⟨l1, l2, hsplit, hvl2⟩ := ih
          (remaining.filter
            (fun n => !((zero_indegree edges remaining).contains n)))
          (List.Nodup.filter _ hnd) (by omega) hok2 u v he hufilt hvfilt
        refine ⟨zero_indegree edges remaining ++ l1, l2, ?_, hvl2⟩
        rw [hstep]
        show zero_indegree edges remaining ++
          (kahn_generations edges fuel (remaining.filter
            (fun n => !((zero_indegree edges remaining).contains n)))).1 = _
        rw [hsplit]
        rw [List.append_assoc]

/-- A nonempty predecessor-closed node set inside the remaining nodes forces
the generator to raise: none of its nodes ever reaches indegree zero. -/
theorem kahn_cycle_false (edges : List (String × String)) :
    ∀ (fuel : Nat) (remaining : List String) (c : List String), c ≠ [] →
      (∀ n ∈ c, n ∈ remaining) → PredClosed edges c →
      (kahn_generations edges fuel remaining).2 = false := by
  intro fuel
  induction fuel with
  | zero =>
    intro remaining c hne hsub _
    obtain ⟨x, hx⟩ : ∃ x, x ∈ c := by
      cases c with
      | nil => exact absurd rfl hne
      | cons a t => exact ⟨a, List.mem_cons_self a t⟩
    have hxr : x ∈ remaining := hsub x hx
    have hremne : ¬remaining.isEmpty = true := by
      intro h
      rw [List.isEmpty_iff.mp h] at hxr
      exact absurd hxr (List.not_mem_nil x)
    simp [kahn_generations]
    intro h
    rw [h] at hxr
    exact absurd hxr (List.not_mem_nil x)
  | succ fuel ih =>
    intro remaining c hne hsub hpc
    obtain ⟨x, hx⟩ : ∃ x, x ∈ c := by
      cases c with
      | nil => exact absurd rfl hne
      | cons a t => exact ⟨a, List.mem_cons_self a t⟩
    have hremne : ¬remaining.isEmpty = true := by
      intro h
      have := hsub x hx
      rw [List.isEmpty_iff.mp h] at this
      exact absurd this (List.not_mem_nil x)
    by_cases hz : (zero_indegree edges remaining).isEmpty = true
    · simp [kahn_generations, hremne, hz]
    · have hstep := kahn_generations_step edges fuel remaining hremne hz
      rw [hstep]
      refine ih (remaining.filter
        (fun n => !((zero_indegree edges remaining).contains n))) c hne ?_ hpc
      intro n hn
      obtain ⟨p, hp, hpe⟩ := hpc n hn
      have hnz : n ∉ zero_indegree edges remaining :=
        target_not_zero_indegree edges remaining p n hpe (hsub p hp)
      refine List.mem_filter.mpr ⟨hsub n hn, ?_⟩
      rw [contains_eq_false_of_not_mem hnz]
      rfl

/-- When the generator raises, the nodes still remaining at that point form a
nonempty predecessor-closed set: a cycle witness inside any superset `S` of
the remaining nodes. -/
theorem kahn_false_cycle (edges : List (String × String)) :
    ∀ (fuel : Nat) (remaining S : List String), remaining.length ≤ fuel →
      (∀ n ∈ remaining, n ∈ S) →
      (kahn_generations edges fuel remaining).2 = false →
      ∃ c : List String, c ≠ [] ∧ (∀ n ∈ c, n ∈ S) ∧ PredClosed edges c := by
  intro fuel
  induction fuel with
  | zero =>
    intro remaining S hlen _ hfalse
    have hnil : remaining = [] :=
      List.eq_nil_of_length_eq_zero (Nat.le_zero.mp hlen)
    rw [hnil] at hfalse
    simp [kahn_generations] at hfalse
  | succ fuel ih =>
    intro remaining S hlen hsub hfalse
    by_cases hemp : remaining.isEmpty = true
    · rw [List.isEmpty_iff.mp hemp] at hfalse
      simp [kahn_generations] at hfalse
    · by_cases hz : (zero_indegree edges remaining).isEmpty = true
      · refine ⟨remaining, fun h => hemp (h ▸ rfl), hsub, ?_⟩
        intro n hn
        have hnz : n ∉ zero_indegree edges remaining := by
          rw [List.isEmpty_iff.mp hz]
          exact List.not_mem_nil n
        have hpred : ¬ (!(edges.any
            (fun e => e.2 == n && remaining.contains e.1))) = true := by
          intro hp
          exact hnz (List.mem_filter.mpr ⟨hn, hp⟩)
        have hany : edges.any
            (fun e => e.2 == n && remaining.contains e.1) = true := by
          cases hb : edges.any (fun e => e.2 == n && remaining.contains e.1) with
          | true => rfl
          | false =>
            rw [hb] at hpred
            exact absurd rfl hpred
        obtain ⟨e, hel, hprop⟩ := List.any_eq_true.mp hany
        have hbeq : (e.2 == n) = true := by
          cases hb1 : (e.2 == n) with
          | true => rfl
          | false =>
            rw [hb1, Bool.false_and] at hprop
            exact absurd hprop (by decide)
        have hcont : remaining.contains e.1 = true := by
          cases hb1 : remaining.contains e.1 with
          | true => rfl
          | false =>
            rw [hb1, Bool.and_false] at hprop
            exact absurd hprop (by decide)
        have he2 : e.2 = n := eq_of_beq hbeq
        refine ⟨e.1, List.elem_iff.mp hcont, ?_⟩
        have : e = (e.1, n) := by
          cases e
          simp at he2 ⊢
          exact he2
        rw [← this]
        exact hel
      · have hstep := kahn_generations_step edges fuel remaining hemp hz
        have hlt := kahn_filter_lt edges remaining hz
        rw [hstep] at hfalse
        exact ih (remaining.filter
            (fun n => !((zero_indegree edges remaining).contains n))) S
          (by omega)
          (fun n hn => hsub n (List.mem_filter.mp hn).1) hfalse

/-- Position separation in a three-block list: if the `A` block carries
neither tag, the `B` block carries tag `u`, and the `C` block never carries
tag `u`, then every index tagged `u` lies strictly before every index tagged
`v`. -/
theorem append3_tag_before (A B C L : List (String × String)) (u v : String)
    (hL : L = (A ++ B) ++ C)
    (hA_u : ∀ x ∈ A, x.1 ≠ u) (hA_v : ∀ x ∈ A, x.1 ≠ v)
    (hB_u : ∀ x ∈ B, x.1 = u) (hC_u : ∀ x ∈ C, x.1 ≠ u)
    (hvu : v ≠ u) :
    ∀ i j (hi : i < L.length) (hj : j < L.length),
      (L.get ⟨i, hi⟩).1 = u → (L.get ⟨j, hj⟩).1 = v → i < j := by
  subst hL
  intro i j hi hj hti htj
  simp only [List.get_eq_getElem] at hti htj
  have hlen : ((A ++ B) ++ C).length = A.length + B.length + C.length := by
    simp [List.length_append]
    omega
  have hilt : i < A.length + B.length := by
    by_contra hge
    have hge' : (A ++ B).length ≤ i := by
      rw [List.length_append]
      omega
    have hCi : i - (A ++ B).length < C.length := by
      rw [List.length_append]
      omega
    have hC : ((A ++ B) ++ C)[i] = C[i - (A ++ B).length] :=
      List.getElem_append_right hge'
    have hmem : ((A ++ B) ++ C)[i] ∈ C := by
      rw [hC]
      exact List.getElem_mem _
    exact hC_u _ hmem hti
  have hige : A.length ≤ i := by
    by_contra hlt
    have hlt' : i < A.length := Nat.lt_of_not_le hlt
    have hiAB : i < (A ++ B).length := by
      rw [List.length_append]
      omega
    have hAB : ((A ++ B) ++ C)[i] = (A ++ B)[i] :=
      List.getElem_append_left hiAB
    have hA2 : (A ++ B)[i] = A[i] := List.getElem_append_left hlt'
    have hmem : ((A ++ B) ++ C)[i] ∈ A := by
      rw [hAB, hA2]
      exact List.getElem_mem _
    exact hA_u _ hmem hti
  have hjge : A.length + B.length ≤ j := by
    by_contra hjlt
    have hjlt' : j < A.length + B.length := Nat.lt_of_not_le hjlt
    have hjAB : j < (A ++ B).length := by
      rw [List.length_append]
      omega
    rcases Nat.lt_or_ge j A.length with hj1 | hj2
    · have hAB : ((A ++ B) ++ C)[j] = (A ++ B)[j] :=
        List.getElem_append_left hjAB
      have hA2 : (A ++ B)[j] = A[j] := List.getElem_append_left hj1
      have hmem : ((A ++ B) ++ C)[j] ∈ A := by
        rw [hAB, hA2]
        exact List.getElem_mem _
      exact hA_v _ hmem htj
    · have hjB : j - A.length < B.length := by
        omega
      have hAB : ((A ++ B) ++ C)[j] = (A ++ B)[j] :=
        List.getElem_append_left hjAB
      have hB2 : (A ++ B)[j] = B[j - A.length] :=
        List.getElem_append_right hj2
      have hmem : ((A ++ B) ++ C)[j] ∈ B := by
        rw [hAB, hB2]
        exact List.getElem_mem _
      exact hvu (htj ▸ hB_u _ hmem)
  omega

/-- Tags of the flattened per-package uploads come from the package list. -/
theorem flatMap_tag_mem (res : String → List String) (l : List String)
    (x : String × String)
    (hx : x ∈ l.flatMap (fun p => (res p).map (fun r => (p, r)))) :
    x.1 ∈ l := by
  rw [List.mem_flatMap] at hx
  obtain ⟨p, hp, hxp⟩ := hx
  rw [List.mem_map] at hxp
  obtain ⟨r, _, hr⟩ := hxp
  rw [← hr]
  exact hp

/-! ## Claim C1: topological upload order and the cycle error -/

/-- C1 (amended): over any dependency graph (distinct node keys, edges between
nodes) and any assignment of resource files to packages: the run aborts with
the fatal cycle error exactly when the graph contains a cycle; and whenever
the run completes without the cycle error (in particular for every acyclic
graph), for every edge `dependency -> dependent` all of the dependency's
resources are uploaded strictly before any of the dependent's resources.  A
cyclic graph does NOT guarantee zero uploads: the lazy generator uploads the
packages of the acyclic prefix before detecting the cycle (see the
counterexample). -/
theorem c1_topological_upload (g : DepGraph) (res : String → List String)
    (hnd : g.nodes.Nodup)
    (hwf : ∀ e ∈ g.edges, e.1 ∈ g.nodes ∧ e.2 ∈ g.nodes) :
    ((upload_run g res).2 = false ↔ HasCycle g) ∧
    ((upload_run g res).2 = true →
      ∀ e ∈ g.edges, ∀ i j (hi : i < (upload_run g res).1.length)
          (hj : j < (upload_run g res).1.length),
        ((upload_run g res).1.get ⟨i, hi⟩).1 = e.1 →
        ((upload_run g res).1.get ⟨j, hj⟩).1 = e.2 → i < j) := by
  constructor
  · constructor
    · intro hfalse
      exact kahn_false_cycle g.edges g.nodes.length g.nodes g.nodes
        (Nat.le_refl _) (fun n hn => hn) hfalse
    · rintro ⟨c, hne, hsub, hpc⟩
      exact kahn_cycle_false g.edges g.nodes.length g.nodes c hne hsub hpc
  · intro hok e he i j hi hj hti htj
    obtain ⟨u, v⟩ := e
    have hu : u ∈ g.nodes := (hwf _ he).1
    have hv : v ∈ g.nodes := (hwf _ he).2
    obtain ⟨l1, l2, hsplit, hvl2⟩ :=
      kahn_before g.edges g.nodes.length g.nodes hnd (Nat.le_refl _) hok
        u v he hu hv
    have hordnd : (kahn_generations g.edges g.nodes.length g.nodes).1.Nodup :=
      (kahn_perm g.edges g.nodes.length g.nodes (Nat.le_refl _)
        hok).nodup_iff.mpr hnd
    rw [hsplit] at hordnd
    obtain ⟨hnd1, hnd2, hdisj⟩ := List.nodup_append.mp hordnd
    obtain ⟨hul2, _⟩ := List.nodup_cons.mp hnd2
    have hul1 : u ∉ l1 := fun hmem => hdisj hmem (List.mem_cons_self u l2)
    have hvl1 : v ∉ l1 := fun hmem => hdisj hmem (List.mem_cons_of_mem u hvl2)
    have hvu : v ≠ u := fun hvu => hul2 (hvu ▸ hvl2)
    have huploads : (upload_run g res).1
        = (l1.flatMap (fun p => (res p).map (fun r => (p, r))) ++
            (res u).map (fun r => (u, r))) ++
          l2.flatMap (fun p => (res p).map (fun r => (p, r))) := by
      show (topological_yield g).1.flatMap _ = _
      unfold topological_yield
      rw [hsplit, List.flatMap_append, List.flatMap_cons, List.append_assoc]
    refine append3_tag_before
      (l1.flatMap (fun p => (res p).map (fun r => (p, r))))
      ((res u).map (fun r => (u, r)))
      (l2.flatMap (fun p => (res p).map (fun r => (p, r))))
      (upload_run g res).1 u v huploads
      ?_ ?_ ?_ ?_ hvu i j hi hj hti htj
    · intro x hx hxu
      exact hul1 (hxu ▸ flatMap_tag_mem res l1 x hx)
    · intro x hx hxv
      exact hvl1 (hxv ▸ flatMap_tag_mem res l1 x hx)
    · intro x hx
      rw [List.mem_map] at hx
      obtain ⟨r, _, hr⟩ := hx
      rw [← hr]
    · intro x hx hxu
      exact hul2 (hxu ▸ flatMap_tag_mem res l2 x hx)

/-- The cyclic graph for the C1 counterexample: an isolated package `A@1.0`
plus a two-cycle between `B@1.0` and `C@1.0`. -/
def c1_cyclic_graph : DepGraph :=
  DepGraph.mk ["A@1.0", "B@1.0", "C@1.0"]
    [("B@1.0", "C@1.0"), ("C@1.0", "B@1.0")]

/-- Resource assignment for the C1 counterexample: `A@1.0` contains one
resource file. -/
def c1_res (p : String) : List String :=
  if p = "A@1.0" then ["a-res.json"] else []

/-- C1 (counterexample): on `c1_cyclic_graph` the run does raise the fatal
cycle error, but it uploads `A@1.0`'s resource first — the claim's "performs
zero resource uploads" is false.  (`["B@1.0", "C@1.0"]` is the
predecessor-closed cycle witness.) -/
theorem c1_counterexample :
    HasCycle c1_cyclic_graph ∧
    (upload_run c1_cyclic_graph c1_res).2 = false ∧
    (upload_run c1_cyclic_graph c1_res).1 = [("A@1.0", "a-res.json")] ∧
    (upload_run c1_cyclic_graph c1_res).1 ≠ [] := by
  refine ⟨⟨["B@1.0", "C@1.0"], by decide, by decide, by decide⟩, ?_, ?_, ?_⟩
  · decide
  · decide
  · decide

/-- The acyclic graph of the spec scenario for the C1 witness: `A@1.0` depends
on `B@2.0`, giving the edge `B@2.0 -> A@1.0`. -/
def c1_dag : DepGraph :=
  DepGraph.mk ["A@1.0", "B@2.0"] [("B@2.0", "A@1.0")]

/-- Resource assignment for the C1 witness. -/
def c1_dag_res (p : String) : List String :=
  if p = "B@2.0" then ["b1.json", "b2.json"] else ["a1.json"]

/-- C1 witness: `c1_topological_upload` applied to the concrete acyclic
two-package graph: the run completes, uploads are
`[b1, b2, a1]`-tagged, and the dependency's first resource (index 0) precedes
the dependent's resource (index 2). -/
theorem c1_topological_upload_witness :
    (upload_run c1_dag c1_dag_res).2 = true ∧ (0 : Nat) < 2 := by
  refine ⟨by decide, ?_⟩
  exact (c1_topological_upload c1_dag c1_dag_res (by decide)
      (by decide)).2 (by decide) ("B@2.0", "A@1.0") (by decide)
    0 2 (by decide) (by decide) (by decide) (by decide)

/-! ## The package download loop (`Populator.download_packages`, lines 300-326)

The loop pops specifiers from a work queue; a specifier found in
`downloaded_packages` is skipped, otherwise the package is downloaded and
extracted.  Crucially, `downloaded_packages.append(package)` sits INSIDE the
`if get_deps:` block (line 322): with dependency fetching disabled the
downloaded set never grows, so nothing is ever skipped.  The registry is
abstracted as `deps : specifier -> dependency specifier list`
(`gather_dependencies`); the fixed ignore-list prefix check of line 318 is
kept.  The result is the ordered list of specifiers actually downloaded and
extracted, or `none` when the fuel runs out before the queue empties. -/

/-- Embedding of the class attribute `Populator.ignored_dependencies`. -/
def ignored_dependencies : List String := ["hl7.fhir.r4"]

/-- Embedding of the `while len(packages_to_download) > 0` loop of
`download_packages`: `queue` is `packages_to_download`, `downloaded` is
`downloaded_packages`, `acc` the downloads performed so far in order. -/
def download_loop (get_deps : Bool) (deps : String → List String) :
    Nat → List String → List String → List String → Option (List String)
  | 0, queue, _, acc => if queue.isEmpty then some acc else none
  | fuel + 1, queue, downloaded, acc =>
    match queue with
    | [] => some acc
    | package :: rest =>
      if downloaded.contains package then
        download_loop get_deps deps fuel rest downloaded acc
      else
        if get_deps then
          let ds := (deps package).filter (fun d =>
            !(ignored_dependencies.any (fun ign => d.startsWith ign)))
          download_loop get_deps deps fuel (rest ++ ds)
            (downloaded ++ [package]) (acc ++ [package])
        else
          download_loop get_deps deps fuel rest downloaded (acc ++ [package])

/-- Invariant proof for the dependency-fetching mode: the downloads performed
are exactly the entries of `downloaded_packages`, which never repeats. -/
theorem download_loop_deps_nodup (deps : String → List String) :
    ∀ (fuel : Nat) (queue downloaded acc : List String), acc.Nodup →
      (∀ p, p ∈ acc ↔ p ∈ downloaded) →
      ∀ l, download_loop true deps fuel queue downloaded acc = some l →
        l.Nodup := by
  intro fuel
  induction fuel with
  | zero =>
    intro queue downloaded acc hacc _ l hl
    unfold download_loop at hl
    by_cases hq : queue.isEmpty = true
    · rw [if_pos hq] at hl
      cases hl
      exact hacc
    · rw [if_neg hq] at hl
      cases hl
  | succ fuel ih =>
    intro queue downloaded acc hacc hiff l hl
    match queue with
    | [] =>
      unfold download_loop at hl
      cases hl
      exact hacc
    | package :: rest =>
      by_cases hc : downloaded.contains package = true
      · have hcm : package ∈ downloaded := List.elem_iff.mp hc
        have hstep : download_loop true deps (fuel + 1) (package :: rest)
            downloaded acc = download_loop true deps fuel rest downloaded acc := by
          simp [download_loop, hcm]
        rw [hstep] at hl
        exact ih rest downloaded acc hacc hiff l hl
      · have hcm : package ∉ downloaded := fun hm => hc (List.elem_iff.mpr hm)
        have hstep : download_loop true deps (fuel + 1) (package :: rest)
            downloaded acc
            = download_loop true deps fuel
              (rest ++ (deps package).filter (fun d =>
                !(ignored_dependencies.any (fun ign => d.startsWith ign))))
              (downloaded ++ [package]) (acc ++ [package]) := by
          simp [download_loop, hcm]
        rw [hstep] at hl
        have hnot : package ∉ acc := fun hmem =>
          hc (List.elem_iff.mpr ((hiff package).mp hmem))
        refine ih _ (downloaded ++ [package]) (acc ++ [package]) ?_ ?_ l hl
        · rw [List.nodup_append]
          exact ⟨hacc, List.nodup_singleton package,
            fun x hx hx1 => hnot ((List.mem_singleton.mp hx1) ▸ hx)⟩
        · intro p
          rw [List.mem_append, List.mem_append]
          exact Iff.or (hiff p) Iff.rfl

/-- In the non-dependency mode the downloaded set never grows from `[]`, so
the loop simply downloads every queue entry in order. -/
theorem download_loop_no_deps (deps : String → List String) :
    ∀ (fuel : Nat) (queue acc : List String), queue.length ≤ fuel →
      download_loop false deps fuel queue [] acc = some (acc ++ queue) := by
  intro fuel
  induction fuel with
  | zero =>
    intro queue acc hlen
    have hq : queue = [] := List.eq_nil_of_length_eq_zero (Nat.le_zero.mp hlen)
    subst hq
    simp [download_loop]
  | succ fuel ih =>
    intro queue acc hlen
    match queue with
    | [] => simp [download_loop]
    | package :: rest =>
      have hstep : download_loop false deps (fuel + 1) (package :: rest) [] acc
          = download_loop false deps fuel rest [] (acc ++ [package]) := by
        simp [download_loop]
      rw [hstep,
        ih rest (acc ++ [package]) (by simpa using Nat.le_of_succ_le_succ hlen)]
      simp

/-! ## Claim C9: at-most-once download per specifier -/

/-- C9 (counterexample): with dependency fetching disabled, the
downloaded-package list is never updated (the `append` sits inside
`if get_deps:`), so an input list containing the same specifier twice
downloads and extracts it twice. -/
theorem c9_counterexample :
    download_loop false (fun _ => []) 5 ["a@1.0", "a@1.0"] [] []
      = some ["a@1.0", "a@1.0"] ∧
    ¬ (["a@1.0", "a@1.0"] : List String).Nodup := by
  constructor
  · rfl
  · decide

/-- C9 (amended): when dependency fetching is enabled, every specifier is
downloaded and extracted at most once per run — revisits of an
already-downloaded specifier (including duplicates in the initial input) are
skipped; when dependency fetching is disabled the downloaded set is never
updated, and the loop downloads every occurrence in the input list, duplicates
included. -/
theorem c9_download_once (deps : String → List String) (fuel : Nat)
    (queue : List String) :
    (∀ l, download_loop true deps fuel queue [] [] = some l → l.Nodup) ∧
    (queue.length ≤ fuel →
      download_loop false deps fuel queue [] [] = some queue) := by
  constructor
  · intro l hl
    exact download_loop_deps_nodup deps fuel queue [] [] List.nodup_nil
      (fun p => by simp) l hl
  · intro hlen
    have h := download_loop_no_deps deps fuel queue [] hlen
    simpa using h

/-- C9 witness: `c9_download_once` on the duplicate input
`["a@1.0", "a@1.0"]`: with dependency fetching the second occurrence is
skipped and the download list `["a@1.0"]` has no duplicates; without it the
loop performs both downloads. -/
theorem c9_download_once_witness :
    download_loop true (fun _ => []) 5 ["a@1.0", "a@1.0"] [] []
      = some ["a@1.0"] ∧
    (["a@1.0"] : List String).Nodup ∧
    download_loop false (fun _ => []) 5 ["a@1.0", "a@1.0"] [] []
      = some ["a@1.0", "a@1.0"] := by
  refine ⟨rfl, ?_, ?_⟩
  · exact (c9_download_once (fun _ => []) 5 ["a@1.0", "a@1.0"]).1 ["a@1.0"] rfl
  · exact (c9_download_once (fun _ => []) 5 ["a@1.0", "a@1.0"]).2 (by decide)

end FhirPopulator
